import Mathlib

/-!
Verification of the agent control loop (`src/core/base_agent.py`) and the
workflow test runner (`src/core/workflow_runner.py`).

The embedding models Python values occurring in the two modules with the
`PyVal` universe, stateful mutation of `self.variables` / `self.messages`
by explicit state passing, and the injected collaborators (the LLM client,
the tool executor, the HTTP transport) as function parameters.  Machine
integers do not overflow in the sources (statuses and counters are small),
so `Nat`/`Int` are used directly.
-/

/-- A Python value as it occurs in JSON bodies, tool inputs/results and
workflow step definitions: strings, ints, booleans, `None`, lists and
string-keyed dicts (dicts keep insertion order, as in Python). -/
inductive PyVal where
  | str (s : String)
  | int (n : Int)
  | bool (b : Bool)
  | null
  | list (l : List PyVal)
  | dict (kvs : List (String × PyVal))

/-- Python truthiness of a `PyVal` (`bool(v)`): empty string, `0`, `False`,
`None`, empty list and empty dict are falsy, everything else truthy. -/
def PyVal.truthy : PyVal → Bool
  | .str s => !s.isEmpty
  | .int n => n != 0
  | .bool b => b
  | .null => false
  | .list l => !l.isEmpty
  | .dict kvs => !kvs.isEmpty

mutual

/-- Python `repr()` of a `PyVal` (string escaping inside `repr` of a string
is not modelled; no workflow or claim depends on it). -/
def pyRepr : PyVal → String
  | .str s => "'" ++ s ++ "'"
  | .int n => toString n
  | .bool true => "True"
  | .bool false => "False"
  | .null => "None"
  | .list l => "[" ++ pyReprList l ++ "]"
  | .dict kvs => "\x7b" ++ pyReprDict kvs ++ "\x7d"

/-- `repr` of the elements of a Python list, comma separated. -/
def pyReprList : List PyVal → String
  | [] => ""
  | [v] => pyRepr v
  | v :: rest => pyRepr v ++ ", " ++ pyReprList rest

/-- `repr` of the items of a Python dict, comma separated. -/
def pyReprDict : List (String × PyVal) → String
  | [] => ""
  | [(k, v)] => "'" ++ k ++ "': " ++ pyRepr v
  | (k, v) :: rest => "'" ++ k ++ "': " ++ pyRepr v ++ ", " ++ pyReprDict rest

end

/-- Python `str()` of a `PyVal`: a string is itself, every other value
renders as its `repr` (matching `str()` on ints, bools, `None`, lists,
dicts). -/
def pyStr : PyVal → String
  | .str s => s
  | v => pyRepr v

/-- Python `str()` applied to an optional value, where `none` stands for
Python `None` (as produced by `dict.get` on a missing key): `str(None)` is
`"None"`. -/
def pyStrOpt : Option PyVal → String
  | none => "None"
  | some v => pyStr v

/-- Python dict assignment `d[k] = v` on a string-to-string dict kept as an
insertion-ordered association list: overwrite in place if the key exists,
append otherwise. -/
def varSet : List (String × String) → String → String → List (String × String)
  | [], k, v => [(k, v)]
  | (k', v') :: rest, k, v =>
      if k' = k then (k', v) :: rest else (k', v') :: varSet rest k v

/-- One attempt of the regex `\x7b\x7b([^\x7d]+)\x7d\x7d` anchored at the
head of the character list: two `{`, then a nonempty group of
non-`}` characters, then two `}`.  Returns the group and the remainder
after the match.  The group is the maximal run of non-`}` characters, which
is the unique candidate: a shorter group would have to be followed by `}`,
impossible since the run extends with non-`}` characters. -/
def matchPlaceholder (cs : List Char) : Option (List Char × List Char) :=
  match cs with
  | c1 :: c2 :: rest0 =>
    if c1 = '{' ∧ c2 = '{' then
      let name := rest0.takeWhile (fun c => c != '}')
      match rest0.drop name.length with
      | d1 :: d2 :: rest =>
        if name ≠ [] ∧ d1 = '}' ∧ d2 = '}' then some (name, rest) else none
      | _ => none
    else none
  | _ => none

/-- The text `re.sub` substitutes for one match: the variable's value when
the name is bound in the store, else the whole match verbatim
(`match.group(0)`), exactly as `replace_var` in
`WorkflowRunner._substitute_variables`. -/
def replaceText (vars : List (String × String)) (name : List Char) : List Char :=
  match List.lookup (String.mk name) vars with
  | some v => v.toList
  | none => '{' :: '{' :: name ++ ['}', '}']

/-- The scan loop of `re.sub`: at each position try the pattern; on a match
emit the replacement and resume after the match, otherwise emit one
character and move on.  Structural recursion on a fuel argument; fuel at
least the length of the list is sufficient since every step consumes at
least one character. -/
def substVarsFuel (vars : List (String × String)) : Nat → List Char → List Char
  | 0, cs => cs
  | _ + 1, [] => []
  | fuel + 1, c :: cs' =>
    match matchPlaceholder (c :: cs') with
    | some nr => replaceText vars nr.1 ++ substVarsFuel vars fuel nr.2
    | none => c :: substVarsFuel vars fuel cs'

/-- `re.sub` over a character list, with enough fuel. -/
def substVarsChars (vars : List (String × String)) (cs : List Char) : List Char :=
  substVarsFuel vars cs.length cs

/-- `WorkflowRunner._substitute_variables`: replace every
`\x7b\x7bname\x7d\x7d` occurrence by the store's value for `name`,
leaving unresolved placeholders verbatim. -/
def substitute_variables (vars : List (String × String)) (text : String) : String :=
  String.mk (substVarsChars vars text.toList)

/-- Whether the placeholder regex matches anywhere in the text (used to
state that substitution leaves match-free strings unchanged). -/
def hasPlaceholder : List Char → Bool
  | [] => false
  | c :: cs => (matchPlaceholder (c :: cs)).isSome || hasPlaceholder cs

/-- The literal text `\x7b\x7bname\x7d\x7d`. -/
def placeholderOf (name : String) : String :=
  String.mk ('{' :: '{' :: name.toList ++ ['}', '}'])

mutual

/-- `WorkflowRunner._substitute_variables_in_obj`: substitute recursively
through strings, dicts and lists; other scalars are returned unchanged. -/
def substitute_variables_in_obj (vars : List (String × String)) : PyVal → PyVal
  | .str s => .str (substitute_variables vars s)
  | .dict kvs => .dict (substObjDict vars kvs)
  | .list l => .list (substObjList vars l)
  | v => v

/-- Recursion of `_substitute_variables_in_obj` through a list. -/
def substObjList (vars : List (String × String)) : List PyVal → List PyVal
  | [] => []
  | v :: rest => substitute_variables_in_obj vars v :: substObjList vars rest

/-- Recursion of `_substitute_variables_in_obj` through dict values (keys
are left untouched, as in the source's dict comprehension). -/
def substObjDict (vars : List (String × String)) :
    List (String × PyVal) → List (String × PyVal)
  | [] => []
  | (k, v) :: rest => (k, substitute_variables_in_obj vars v) :: substObjDict vars rest

end

/-! ## Workflow runner (`src/core/workflow_runner.py`) data model -/

/-- A step's `expect` object: optional expected status and the
`body_contains` map (insertion-ordered, iterated in order as in Python). -/
structure Expect where
  status : Option Int := none
  body_contains : List (String × PyVal) := []

/-- A workflow step as loaded from its definition dict. -/
structure Step where
  action : String
  headers : List (String × PyVal) := []
  body : Option PyVal := none
  query : List (String × PyVal) := []
  expect : Expect := {}

/-- A workflow definition; the defaults mirror the `dict.get` defaults in
`run_workflow` (`'unnamed'`, `''`, `'unknown'`, `[]`). -/
structure Workflow where
  name : String := "unnamed"
  description : String := ""
  category : String := "unknown"
  steps : List Step := []

/-- The `response` entry of a step-result dict: absent, the truncated raw
body text (failure cases), or the parsed JSON value (success case). -/
inductive RespField where
  | absent
  | text (s : String)
  | jsonVal (j : Option PyVal)

/-- A step-result dict; fields that a given return site does not set are
`none`/`absent`. -/
structure StepResult where
  success : Bool
  error : Option String := none
  actual_status : Option Int := none
  status : Option Int := none
  response : RespField := .absent

/-- The dict returned by `run_workflow`. -/
structure WorkflowResult where
  name : String
  description : String
  category : String
  success : Bool
  steps : List StepResult

/-- The dict returned by `run_workflows`. -/
structure RunSummary where
  success : Bool
  total : Nat
  passed : Nat
  failed : Nat
  results : List WorkflowResult

/-- The request `_execute_step` hands to `urllib` (`json.dumps` of the body
is modelled by passing the substituted structured body itself). -/
structure HttpRequest where
  url : String
  data : Option PyVal
  headers : List (String × String)
  method : String

/-- Outcome of the `urllib` round trip together with the `json.loads`
attempt on the body: a 2xx response, an `HTTPError` carrying a status
(4xx/5xx), or any other exception (transport failure).  `json = none`
models a `JSONDecodeError` (and a literal `null` body, which Python parses
to `None` as well). -/
inductive HttpResult where
  | ok (status : Int) (body : String) (json : Option PyVal)
  | httpError (code : Int) (body : String) (json : Option PyVal)
  | exn (msg : String)

/-- The Python exceptions that the expectation-checking code can raise on a
non-dict parsed response; they propagate to the outer `try` of
`_execute_step`. -/
inductive PyExc where
  | typeError
  | attributeError
  | keyError

/-- `str(e)` for those exceptions.  The interpreter's exact message text is
runtime-defined and not part of the source; it is modelled by the
exception class name. -/
def pyExcStr : PyExc → String
  | .typeError => "TypeError"
  | .attributeError => "AttributeError"
  | .keyError => "KeyError"

/-- Python equality between a JSON value and a string (`==` against a
`str`): true only for the equal string. -/
def pyEqStr (v : PyVal) (key : String) : Bool :=
  match v with
  | .str s => s == key
  | _ => false

/-- Contiguous-substring test on character lists (Python `sub in s`). -/
def charsContain (needle : List Char) : List Char → Bool
  | [] => needle.isEmpty
  | c :: rest => needle.isPrefixOf (c :: rest) || charsContain needle rest

/-- Python `key in v` for a string key: key membership for a dict, element
equality for a list, substring test for a string, `TypeError` otherwise. -/
def pyIn (key : String) : PyVal → Except PyExc Bool
  | .dict kvs => .ok (kvs.any (fun kv => kv.1 == key))
  | .list l => .ok (l.any (fun v => pyEqStr v key))
  | .str s => .ok (charsContain key.toList s.toList)
  | _ => .error .typeError

/-- Python `v[key]` for a string key: dict lookup (`KeyError` when absent),
`TypeError` on any other value. -/
def pySubscript (key : String) : PyVal → Except PyExc PyVal
  | .dict kvs =>
    match kvs.lookup key with
    | some v => .ok v
    | none => .error .keyError
  | _ => .error .typeError

/-- Python `v.get(key)`: dict lookup returning `None` when absent;
`AttributeError` on any non-dict value. -/
def pyGet (key : String) : PyVal → Except PyExc (Option PyVal)
  | .dict kvs => .ok (kvs.lookup key)
  | _ => .error .attributeError

/-- The characters of the literal `\x7b\x7bsave:`. -/
def saveMarker : List Char := ['{', '{', 's', 'a', 'v', 'e', ':']

/-- `isinstance(expected_value, str) and expected_value.startswith('\x7b\x7bsave:')`. -/
def isSaveDirective : PyVal → Bool
  | .str s => s.toList.take 7 == saveMarker
  | _ => false

/-- `expected_value[7:-2]`: the captured variable name of a save
directive. -/
def saveVarName : PyVal → String
  | .str s =>
    let l := s.toList.drop 7
    String.mk (l.take (l.length - 2))
  | _ => ""

/-- `response_body[:500]`. -/
def truncate500 (s : String) : String :=
  String.mk (s.toList.take 500)

/-- Outcome of the `body_contains` loop: all entries passed, an early
return on a comparison mismatch, or a raised exception.  Each outcome
carries the variable store as mutated so far (`self.variables` persists
across the early exits). -/
inductive CheckOutcome where
  | passed (vars : List (String × String))
  | failed (vars : List (String × String)) (err : String)
  | raised (vars : List (String × String)) (e : PyExc)

/-- The store carried by a `CheckOutcome`. -/
def CheckOutcome.outVars : CheckOutcome → List (String × String)
  | .passed vars => vars
  | .failed vars _ => vars
  | .raised vars _ => vars

/-- The `for key, expected_value in body_contains.items()` loop of
`_execute_step`: a `\x7b\x7bsave:NAME\x7d\x7d` expected value stores
`str(response_json[key])` under `NAME` when `key in response_json`;
any other expected value is variable-substituted (as a string) and
compared against `str(response_json.get(key))`, returning the mismatch
error on the first failing comparison. -/
def checkBodyContains (respJson : PyVal) :
    List (String × PyVal) → List (String × String) → CheckOutcome
  | [], vars => .passed vars
  | (key, expectedValue) :: rest, vars =>
    if isSaveDirective expectedValue then
      match pyIn key respJson with
      | .error e => .raised vars e
      | .ok true =>
        match pySubscript key respJson with
        | .error e => .raised vars e
        | .ok v =>
          checkBodyContains respJson rest
            (varSet vars (saveVarName expectedValue) (pyStr v))
      | .ok false => checkBodyContains respJson rest vars
    else
      match pyGet key respJson with
      | .error e => .raised vars e
      | .ok actual =>
        let expectedSub := substitute_variables vars (pyStr expectedValue)
        if pyStrOpt actual == expectedSub then
          checkBodyContains respJson rest vars
        else
          .failed vars
            ("Expected " ++ key ++ "=" ++ expectedSub ++ ", got " ++ pyStrOpt actual)

/-- `if expected_status and status != expected_status:` — the status check
fails only when an expected status is present, truthy (nonzero) and
different from the actual one. -/
def statusCheckFails (expected : Option Int) (status : Int) : Bool :=
  match expected with
  | some e => e != 0 && status != e
  | none => false

/-- Truthiness of the parsed response (`if body_contains and response_json:`
guard, right operand); `none` is Python `None`. -/
def jsonTruthy : Option PyVal → Bool
  | none => false
  | some v => v.truthy

/-- Expectation checking of `_execute_step` after a response (normal or
`HTTPError`) was obtained: the status check, then the guarded
`body_contains` loop; an exception raised inside it is caught by the
enclosing `try` and reported as `Request failed`. -/
def checkResponse (expect : Expect) (status : Int) (response_body : String)
    (response_json : Option PyVal) (vars : List (String × String)) :
    StepResult × List (String × String) :=
  if statusCheckFails expect.status status then
    ({ success := false,
       error := some ("Expected status " ++ toString (expect.status.getD 0) ++
         ", got " ++ toString status),
       actual_status := some status,
       response := .text (truncate500 response_body) }, vars)
  else
    if !expect.body_contains.isEmpty && jsonTruthy response_json then
      match response_json with
      | none => ({ success := true, status := some status, response := .jsonVal response_json }, vars)
      | some v =>
        match checkBodyContains v expect.body_contains vars with
        | .passed vars' =>
          ({ success := true, status := some status, response := .jsonVal response_json }, vars')
        | .failed vars' err =>
          ({ success := false, error := some err,
             response := .text (truncate500 response_body) }, vars')
        | .raised vars' e =>
          ({ success := false, error := some ("Request failed: " ++ pyExcStr e) }, vars')
    else
      ({ success := true, status := some status, response := .jsonVal response_json }, vars)

/-- `action.split(' ', 1)` restricted to the two-part case: the text before
the first space and everything after it; `none` when the action contains no
space (the `len(parts) != 2` failure). -/
def splitAction : List Char → Option (List Char × List Char)
  | [] => none
  | c :: cs =>
    if c = ' ' then some ([], cs)
    else
      match splitAction cs with
      | some (a, b) => some (c :: a, b)
      | none => none

/-- `WorkflowRunner._execute_step`: parse the action, substitute variables
into path, query, headers and body, issue the request through the injected
transport, and check the expectations.  Returns the step-result dict and
the variable store after the step's mutations. -/
def execute_step (base_url : String) (http : HttpRequest → HttpResult)
    (vars : List (String × String)) (step : Step) :
    StepResult × List (String × String) :=
  match splitAction step.action.toList with
  | none =>
    ({ success := false, error := some ("Invalid action format: " ++ step.action) }, vars)
  | some (m, p) =>
    let method := (String.mk m).toUpper
    let path0 := substitute_variables vars (String.mk p)
    let path :=
      if !step.query.isEmpty then
        let qsub := substObjDict vars step.query
        let queryString :=
          "&".intercalate (qsub.map (fun kv => kv.1 ++ "=" ++ pyStr kv.2))
        if path0.toList.contains '?' then path0 ++ "&" ++ queryString
        else path0 ++ "?" ++ queryString
      else path0
    let headers0 :=
      step.headers.map (fun kv => (kv.1, substitute_variables vars (pyStr kv.2)))
    let bodyTruthy :=
      match step.body with
      | some b => b.truthy
      | none => false
    let data :=
      if bodyTruthy then some (substitute_variables_in_obj vars (step.body.getD .null))
      else none
    let headers :=
      if bodyTruthy then varSet headers0 "Content-Type" "application/json"
      else headers0
    match http ⟨base_url ++ path, data, headers, method⟩ with
    | .ok status body json => checkResponse step.expect status body json vars
    | .httpError code body json => checkResponse step.expect code body json vars
    | .exn msg =>
      ({ success := false, error := some ("Request failed: " ++ msg) }, vars)

/-- The built-in seed-data variables of `WorkflowRunner`. -/
def BUILTIN_VARIABLES : List (String × String) :=
  [("customer_username", "customer1"),
   ("store_owner_username", "storeowner"),
   ("admin_username", "admin"),
   ("test_password", "password"),
   ("available_pet_id", "1"),
   ("pending_pet_id", "5"),
   ("sold_pet_id", "6")]

/-- The step loop of `run_workflow`: execute steps in order, threading the
variable store, recording each result, and stopping at the first result
with `success = false`.  Returns the recorded results, the final store and
the `workflow_success` flag. -/
def run_steps
    (exec1 : List (String × String) → Step → StepResult × List (String × String)) :
    List Step → List (String × String) →
      List StepResult × List (String × String) × Bool
  | [], vars => ([], vars, true)
  | s :: rest, vars =>
    let (r, vars') := exec1 vars s
    if r.success then
      let (rs, vars'', ok) := run_steps exec1 rest vars'
      (r :: rs, vars'', ok)
    else ([r], vars', false)

/-- `WorkflowRunner.run_workflow`, parametrised by the step executor
(`_execute_step` with its transport): reset the store to the builtins, run
the steps with first-failure-stops semantics, return the workflow-result
dict. -/
def run_workflow
    (exec1 : List (String × String) → Step → StepResult × List (String × String))
    (wf : Workflow) : WorkflowResult :=
  let (rs, _, ok) := run_steps exec1 wf.steps BUILTIN_VARIABLES
  ⟨wf.name, wf.description, wf.category, ok, rs⟩

/-- `run_workflow` with the concrete `_execute_step` over an HTTP
transport. -/
def run_workflow_http (base_url : String) (http : HttpRequest → HttpResult)
    (wf : Workflow) : WorkflowResult :=
  run_workflow (fun vars s => execute_step base_url http vars s) wf

/-- `WorkflowRunner.run_workflows`: run every workflow (each resets the
store) and aggregate pass/fail counts. -/
def run_workflows
    (exec1 : List (String × String) → Step → StepResult × List (String × String))
    (wfs : List Workflow) : RunSummary :=
  let results := wfs.map (run_workflow exec1)
  let passed := (results.filter (fun r => r.success)).length
  let failed := (results.filter (fun r => !r.success)).length
  ⟨failed == 0, wfs.length, passed, failed, results⟩

/-! ## Agent loop (`src/core/base_agent.py`) data model -/

/-- A content block of an LLM reply: a text block or a tool-use block
(`block.type == "tool_use"`, with `id`, `name`, `input`). -/
inductive Block where
  | text (s : String)
  | tool_use (id : String) (name : String) (input : PyVal)

/-- An LLM reply: content blocks plus a stop reason. -/
structure Response where
  content : List Block
  stop_reason : String

/-- A tool-result dict as appended by the loop (`type` is always
`"tool_result"`; `is_error` is only set on the exception path, modelled by
a Bool defaulting to false). -/
structure ToolResult where
  tool_use_id : String
  content : String
  is_error : Bool := false

/-- The `content` of a transcript message: the initial prompt string, the
raw blocks of an assistant reply, or a list of tool-result dicts. -/
inductive MsgContent where
  | ofText (s : String)
  | ofBlocks (bs : List Block)
  | ofToolResults (trs : List ToolResult)

/-- A transcript message. -/
structure Message where
  role : String
  content : MsgContent

/-- `BaseAgent._extract_text`: a plain string is returned as is; for a
block list the `text` attributes of the text blocks are joined with
spaces (tool-use blocks and tool-result dicts have no `text` attribute). -/
def extract_text : MsgContent → String
  | .ofText s => s
  | .ofBlocks bs =>
    " ".intercalate (bs.filterMap (fun b =>
      match b with
      | .text t => some t
      | .tool_use _ _ _ => none))
  | .ofToolResults _ => ""

/-- Whether a block is a tool-use block (`block.type == "tool_use"`). -/
def isToolUse : Block → Bool
  | .tool_use _ _ _ => true
  | .text _ => false

/-- `[block for block in response.content if block.type == "tool_use"]`. -/
def toolUsesOf (bs : List Block) : List Block :=
  bs.filter isToolUse

/-- The `id` of a tool-use block (`""` for a text block, which never occurs
in a filtered list). -/
def blockId : Block → String
  | .tool_use id _ _ => id
  | .text _ => ""

/-- `isinstance(result, dict) and result.get("complete")`: the raw tool
result signals completion when it is a dict whose `complete` entry is
truthy. -/
def isCompleteResult : PyVal → Bool
  | .dict kvs =>
    match kvs.lookup "complete" with
    | some c => c.truthy
    | none => false
  | _ => false

/-- `str(result) if len(str(result)) < 200 else str(result)[:200] + "..."`. -/
def truncateResult (s : String) : String :=
  if s.length < 200 then s else String.mk (s.toList.take 200) ++ "..."

/-- The `for tool_use in tool_uses:` loop of `BaseAgent.run`, over the
injected tool executor (which may raise, modelled by `Except`): produces
the tool-result list in call order, the `is_complete` flag, and the
`final_data` payload (the last completion-signalling raw result, since each
such result overwrites `final_data`).  An exception yields an error result
and the loop continues with the next call. -/
def exec_tools (texec : String → PyVal → Except String PyVal) :
    List Block → List ToolResult × Bool × Option PyVal
  | [] => ([], false, none)
  | .text _ :: rest => exec_tools texec rest
  | .tool_use id name input :: rest =>
    match texec name input with
    | .ok result =>
      let tr : ToolResult := ⟨id, truncateResult (pyStr result), false⟩
      let isC := isCompleteResult result
      let (trs, c2, fd2) := exec_tools texec rest
      (tr :: trs, isC || c2,
        match fd2 with
        | some d => some d
        | none => if isC then some result else none)
    | .error msg =>
      let tr : ToolResult := ⟨id, "Error: " ++ msg, true⟩
      let (trs, c2, fd2) := exec_tools texec rest
      (tr :: trs, c2, fd2)

/-- The `while iteration < self.max_iterations and not is_complete:` loop
of `BaseAgent.run`.  `fuel` is the remaining budget
(`max_iterations - iteration`); since `iteration` increases by exactly one
per pass and `is_complete` always triggers a `break` inside the pass that
sets it, the loop condition reduces to the fuel.  Returns
`(iteration, is_complete, final_data, messages)`. -/
def run_loop (llm : List Message → Response)
    (texec : String → PyVal → Except String PyVal) :
    Nat → Nat → List Message → Nat × Bool × Option PyVal × List Message
  | 0, iteration, msgs => (iteration, false, none, msgs)
  | fuel + 1, iteration, msgs =>
    let response := llm msgs
    let tool_uses := toolUsesOf response.content
    if tool_uses.isEmpty then
      (iteration + 1, false, none, msgs ++ [⟨"assistant", .ofBlocks response.content⟩])
    else
      let (tool_results, isC, fd) := exec_tools texec tool_uses
      let msgs2 := msgs ++ [⟨"assistant", .ofBlocks response.content⟩]
        ++ [⟨"user", .ofToolResults tool_results⟩]
      if isC then (iteration + 1, true, fd, msgs2)
      else if response.stop_reason == "end_turn" then (iteration + 1, false, none, msgs2)
      else run_loop llm texec fuel (iteration + 1) msgs2

/-- The dict returned by `BaseAgent.run`. -/
structure RunResult where
  success : Bool
  iterations : Nat
  final_message : String
  data : Option PyVal

/-- `BaseAgent.run`: append the initial prompt as a user message to the
instance's (persistent) `self.messages`, drive the loop, and return the
summary dict together with the messages the instance holds afterwards. -/
def agent_run (llm : List Message → Response)
    (texec : String → PyVal → Except String PyVal)
    (max_iterations : Nat) (messages0 : List Message)
    (initial_prompt : String) : RunResult × List Message :=
  let msgs := messages0 ++ [⟨"user", .ofText initial_prompt⟩]
  let (iteration, isC, fd, msgsF) := run_loop llm texec max_iterations 0 msgs
  let final_message :=
    match msgsF.getLast? with
    | some m => extract_text m.content
    | none => ""
  ({ success := isC || decide (iteration < max_iterations),
     iterations := iteration,
     final_message := final_message,
     data := fd }, msgsF)

/-- `BaseAgent.reset`: clear the conversation history. -/
def agent_reset (_msgs : List Message) : List Message := []


/-! ## Auxiliary definitions and test fixtures -/

/-- Whether a Python value is a dict. -/
def PyVal.isDict : PyVal → Bool
  | .dict _ => true
  | _ => false

/-- "Last completion wins" combination of `final_data` assignments: a later
payload overrides an earlier one. -/
def combineFd (a b : Option PyVal) : Option PyVal :=
  match b with
  | some d => some d
  | none => a

/-- No tool call of the list yields a completion-signalling result under
the given executor. -/
def noCompleteIn (texec : String → PyVal → Except String PyVal)
    (bs : List Block) : Prop :=
  ∀ id name input r, Block.tool_use id name input ∈ bs →
    texec name input = Except.ok r → isCompleteResult r = false

/-- Mock transport: every request gets an `HTTPError` with status 404. -/
def http404 : HttpRequest → HttpResult := fun _ => .httpError 404 "Not Found" none

/-- Scenario B step: expect status 200. -/
def stepB : Step := { action := "GET /pets/1", expect := { status := some 200 } }

/-- Scenario B workflow: the single step above. -/
def wfB : Workflow := { name := "scenario-b", steps := [stepB] }

/-- A step whose expected status is the (falsy) integer 0. -/
def stepZero : Step := { action := "GET /pets/1", expect := { status := some 0 } }

/-- Mock transport answering 200 with the JSON body `5` (a truthy
non-object). -/
def httpNum : HttpRequest → HttpResult := fun _ => .ok 200 "5" (some (.int 5))

/-- A step with a comparison `body_contains` entry. -/
def stepNum : Step :=
  { action := "GET /n",
    expect := { status := some 200, body_contains := [("k", PyVal.str "v")] } }

/-- The literal capture directive `\x7b\x7bsave:nm\x7d\x7d`. -/
def saveNmStr : String :=
  String.mk ['{', '{', 's', 'a', 'v', 'e', ':', 'n', 'm', '}', '}']

/-- Mock transport for the capture scenarios: 200 with a two-field JSON
object. -/
def httpC4 : HttpRequest → HttpResult :=
  fun _ => .ok 200 "resp" (some (.dict [("a", .str "y"), ("b", .str "z")]))

/-- A step whose first `body_contains` entry is a failing comparison and
whose second is a capture directive. -/
def stepC4 : Step :=
  { action := "GET /c",
    expect := { status := some 200,
                body_contains := [("a", PyVal.str "x"), ("b", PyVal.str saveNmStr)] } }

/-- Mock transport for the successful capture: 200 with field `b`. -/
def httpC4w : HttpRequest → HttpResult :=
  fun _ => .ok 200 "resp" (some (.dict [("b", .str "z")]))

/-- A step whose only `body_contains` entry is a capture directive. -/
def stepC4w : Step :=
  { action := "GET /c",
    expect := { status := some 200,
                body_contains := [("b", PyVal.str saveNmStr)] } }

/-- Mock step executor: a step succeeds iff its action is `"ok"`. -/
def exec1W : List (String × String) → Step → StepResult × List (String × String) :=
  fun vars s => ({ success := s.action == "ok" }, vars)

/-- A step the mock executor accepts. -/
def stepOk : Step := { action := "ok" }

/-- A step the mock executor rejects. -/
def stepBad : Step := { action := "bad" }

/-- Three-step workflow whose second step fails under the mock executor. -/
def wfC1 : Workflow := { name := "w", steps := [stepOk, stepBad, stepOk] }

/-- Mock tool executor: every call returns `None`. -/
def texecNull : String → PyVal → Except String PyVal := fun _ _ => .ok PyVal.null

/-- Mock LLM that always requests one tool call. -/
def llmLoop : List Message → Response :=
  fun _ => ⟨[Block.tool_use "t1" "tool" PyVal.null], "tool_use"⟩

/-- Mock LLM whose reply has no tool-use blocks. -/
def llmNoTool : List Message → Response := fun _ => ⟨[Block.text "done"], "end_turn"⟩

/-- A completion-signalling raw tool result. -/
def completePayload : PyVal := PyVal.dict [("complete", PyVal.bool true)]

/-- Mock tool executor signalling completion on every call. -/
def texecComplete : String → PyVal → Except String PyVal :=
  fun _ _ => .ok completePayload

/-- Mock LLM requesting two tool calls per reply. -/
def llmTwo : List Message → Response :=
  fun _ => ⟨[Block.tool_use "t1" "a" PyVal.null,
    Block.tool_use "t2" "b" PyVal.null], "tool_use"⟩

/-- Mock tool executor raising on the tool named `boom`. -/
def texecErr : String → PyVal → Except String PyVal :=
  fun name _ => if name == "boom" then .error "kaput" else .ok PyVal.null

/-- Tool calls before the raising one. -/
def preW : List Block := [Block.tool_use "t1" "x" PyVal.null]

/-- Tool calls after the raising one. -/
def postW : List Block := [Block.tool_use "t3" "y" PyVal.null]

/-- Mock LLM whose reply depends on the transcript length (no tools
either way). -/
def llm9 : List Message → Response :=
  fun msgs =>
    if msgs.length ≤ 1 then ⟨[Block.text "short"], "end_turn"⟩
    else ⟨[Block.text "long"], "end_turn"⟩

/-! ## Lemmas: template substitution -/

/-- A successful placeholder match strictly shrinks the remainder. -/
theorem matchPlaceholder_length {cs : List Char} {nr : List Char × List Char}
    (h : matchPlaceholder cs = some nr) : nr.2.length < cs.length := by
  cases cs with
  | nil => simp [matchPlaceholder] at h
  | cons c1 t =>
    cases t with
    | nil => simp [matchPlaceholder] at h
    | cons c2 rest0 =>
      simp only [matchPlaceholder] at h
      split at h
      · split at h
        next d1 d2 rest hdrop =>
          split at h
          · cases h
            have hl := congrArg List.length hdrop
            simp [List.length_drop] at hl
            simp only [List.length_cons]
            omega
          · cases h
        next => cases h
      · cases h

/-- The scan result does not depend on the fuel once the fuel covers the
length of the input. -/
theorem substVarsFuel_congr (vars : List (String × String)) :
    ∀ f1 f2 (cs : List Char), cs.length ≤ f1 → cs.length ≤ f2 →
      substVarsFuel vars f1 cs = substVarsFuel vars f2 cs := by
  intro f1
  induction f1 with
  | zero =>
    intro f2 cs h1 _
    have : cs = [] := List.eq_nil_of_length_eq_zero (Nat.le_zero.mp h1)
    subst this
    cases f2 <;> rfl
  | succ f ih =>
    intro f2 cs h1 h2
    cases cs with
    | nil => cases f2 <;> rfl
    | cons c cs' =>
      cases f2 with
      | zero => simp at h2
      | succ f2' =>
        simp only [List.length_cons] at h1 h2
        simp only [substVarsFuel]
        cases hm : matchPlaceholder (c :: cs') with
        | some nr =>
          have hlen := matchPlaceholder_length hm
          simp only [List.length_cons] at hlen
          show replaceText vars nr.1 ++ substVarsFuel vars f nr.2 =
            replaceText vars nr.1 ++ substVarsFuel vars f2' nr.2
          congr 1
          exact ih f2' nr.2 (by omega) (by omega)
        | none =>
          show c :: substVarsFuel vars f cs' = c :: substVarsFuel vars f2' cs'
          congr 1
          exact ih f2' cs' (by omega) (by omega)

/-- Unfolding of the scan at a matching position. -/
theorem substVarsChars_match (vars : List (String × String)) {cs : List Char}
    {nr : List Char × List Char} (h : matchPlaceholder cs = some nr) :
    substVarsChars vars cs = replaceText vars nr.1 ++ substVarsChars vars nr.2 := by
  cases cs with
  | nil => simp [matchPlaceholder] at h
  | cons c cs' =>
    have hlen := matchPlaceholder_length h
    simp only [List.length_cons] at hlen
    unfold substVarsChars
    simp only [List.length_cons, substVarsFuel, h]
    congr 1
    exact substVarsFuel_congr vars cs'.length nr.2.length nr.2 (by omega) le_rfl

/-- Unfolding of the scan at a non-matching position. -/
theorem substVarsChars_cons_none (vars : List (String × String)) (c : Char)
    (cs' : List Char) (h : matchPlaceholder (c :: cs') = none) :
    substVarsChars vars (c :: cs') = c :: substVarsChars vars cs' := by
  unfold substVarsChars
  simp only [List.length_cons, substVarsFuel, h]

/-- A text in which the placeholder pattern matches nowhere is returned
unchanged by the scan. -/
theorem substVarsChars_id_of_no_match (vars : List (String × String)) :
    ∀ cs : List Char, hasPlaceholder cs = false → substVarsChars vars cs = cs := by
  intro cs
  induction cs with
  | nil => intro _; rfl
  | cons c cs' ih =>
    intro h
    simp only [hasPlaceholder, Bool.or_eq_false_iff] at h
    have hm : matchPlaceholder (c :: cs') = none := by
      cases hmm : matchPlaceholder (c :: cs') with
      | none => rfl
      | some nr => rw [hmm] at h; simp at h
    rw [substVarsChars_cons_none vars c cs' hm, ih h.2]

/-- `takeWhile (· != brace)` over a run of non-brace characters followed by
a brace keeps exactly the run. -/
theorem takeWhile_append_all {l l2 : List Char} (hall : ∀ c ∈ l, c ≠ '}') :
    (l ++ '}' :: l2).takeWhile (fun c => c != '}') = l := by
  induction l with
  | nil => simp
  | cons a t ih =>
    have ha : a ≠ '}' := hall a (by simp)
    simp only [List.cons_append, List.takeWhile_cons]
    simp only [bne_iff_ne, ne_eq, ha, not_false_eq_true, if_true]
    rw [ih (fun c hc => hall c (by simp [hc]))]

/-- The regex matches a pure placeholder text with the whole name as group
and nothing after it. -/
theorem matchPlaceholder_verbatim {name : List Char} (hne : name ≠ [])
    (hall : ∀ c ∈ name, c ≠ '}') :
    matchPlaceholder ('{' :: '{' :: (name ++ ['}', '}'])) = some (name, []) := by
  have ht : (name ++ ['}', '}']).takeWhile (fun c => c != '}') = name := by
    have h2 : name ++ ['}', '}'] = name ++ '}' :: ['}'] := rfl
    rw [h2, takeWhile_append_all hall]
  simp only [matchPlaceholder, ht, List.drop_left]
  simp [hne]

/-- An unresolved placeholder (name absent from the store) is left
verbatim by the scan. -/
theorem substVarsChars_verbatim (vars : List (String × String)) {name : List Char}
    (hne : name ≠ []) (hall : ∀ c ∈ name, c ≠ '}')
    (hlk : List.lookup (String.mk name) vars = none) :
    substVarsChars vars ('{' :: '{' :: (name ++ ['}', '}'])) =
      '{' :: '{' :: (name ++ ['}', '}']) := by
  rw [substVarsChars_match vars (matchPlaceholder_verbatim hne hall)]
  simp [replaceText, hlk, substVarsChars, substVarsFuel]

/-- Rebuilding a string from its character list is the identity. -/
theorem string_mk_toList (s : String) : String.mk s.toList = s := rfl

/-- `substObjList` is `List.map` of the object substitution. -/
theorem substObjList_eq_map (vars : List (String × String)) :
    ∀ l : List PyVal, substObjList vars l = l.map (substitute_variables_in_obj vars) := by
  intro l
  induction l with
  | nil => rfl
  | cons v rest ih => simp [substObjList, ih]

/-- `substObjDict` maps the object substitution over the values. -/
theorem substObjDict_eq_map (vars : List (String × String)) :
    ∀ kvs : List (String × PyVal),
      substObjDict vars kvs =
        kvs.map (fun kv => (kv.1, substitute_variables_in_obj vars kv.2)) := by
  intro kvs
  induction kvs with
  | nil => rfl
  | cons kv rest ih =>
    cases kv
    simp [substObjDict, ih]

/-! ## Lemmas: workflow runner -/

/-- Looking up the key just set by `varSet` yields the new value. -/
theorem lookup_varSet_self :
    ∀ (l : List (String × String)) (k v : String),
      List.lookup k (varSet l k v) = some v := by
  intro l
  induction l with
  | nil => intro k v; simp [varSet, List.lookup]
  | cons kv rest ih =>
    intro k v
    obtain ⟨k', v'⟩ := kv
    by_cases h : k' = k
    · subst h
      simp [varSet, List.lookup]
    · have hbeq : (k == k') = false := by
        rw [beq_eq_false_iff_ne]
        exact fun hc => h hc.symm
      simp [varSet, h, List.lookup, hbeq, ih]

/-- `varSet` leaves other keys unchanged. -/
theorem lookup_varSet_ne {k k' : String} (hne : k ≠ k') :
    ∀ (l : List (String × String)) (v : String),
      List.lookup k (varSet l k' v) = List.lookup k l := by
  intro l
  induction l with
  | nil =>
    intro v
    have hbeq : (k == k') = false := beq_eq_false_iff_ne.mpr hne
    simp [varSet, List.lookup, hbeq]
  | cons kv rest ih =>
    intro v
    obtain ⟨k0, v0⟩ := kv
    by_cases h : k0 = k'
    · subst h
      have hbeq : (k == k0) = false := beq_eq_false_iff_ne.mpr hne
      simp [varSet, List.lookup, hbeq]
    · cases hb : k == k0 <;> simp [varSet, h, List.lookup, hb, ih]

/-- A dict containing a key is nonempty. -/
theorem ne_nil_of_lookup_some {α β : Type _} [BEq α] {k : α} {v : β}
    {l : List (α × β)} (h : List.lookup k l = some v) : l ≠ [] := by
  cases l with
  | nil => simp [List.lookup] at h
  | cons a t => simp

/-- `key in d` is true for a dict containing the key. -/
theorem any_beq_of_lookup_some {k : String} {v : PyVal}
    {kvs : List (String × PyVal)} (h : List.lookup k kvs = some v) :
    (kvs.any (fun kv => kv.1 == k)) = true := by
  induction kvs with
  | nil => simp [List.lookup] at h
  | cons a t ih =>
    obtain ⟨k0, v0⟩ := a
    cases hb : k == k0 with
    | true =>
      have h0 : (k0 == k) = true := by
        rw [beq_iff_eq] at hb ⊢
        exact hb.symm
      simp [List.any_cons, h0]
    | false =>
      simp only [List.lookup, hb] at h
      have h0 : (k0 == k) = false := by
        rw [beq_eq_false_iff_ne] at hb ⊢
        exact fun hc => hb hc.symm
      simp [List.any_cons, h0, ih h]

/-- Processing a concatenation of `body_contains` entries: the tail runs
from the store the prefix produced, provided the prefix passed; an early
exit in the prefix short-circuits. -/
theorem checkBodyContains_append (respJson : PyVal) :
    ∀ (l1 l2 : List (String × PyVal)) (vars : List (String × String)),
      checkBodyContains respJson (l1 ++ l2) vars =
        match checkBodyContains respJson l1 vars with
        | .passed v' => checkBodyContains respJson l2 v'
        | .failed v' e => .failed v' e
        | .raised v' e => .raised v' e := by
  intro l1
  induction l1 with
  | nil => intro l2 vars; simp [checkBodyContains]
  | cons kv rest ih =>
    intro l2 vars
    obtain ⟨key, ev⟩ := kv
    simp only [List.cons_append, checkBodyContains]
    by_cases hsd : isSaveDirective ev
    · simp only [hsd, if_true]
      cases hin : pyIn key respJson with
      | error e => rfl
      | ok b =>
        cases b with
        | true =>
          cases hsub : pySubscript key respJson with
          | error e => rfl
          | ok v => exact ih l2 _
        | false => exact ih l2 _
    · simp only [hsd, if_false, Bool.false_eq_true]
      cases hget : pyGet key respJson with
      | error e => rfl
      | ok actual =>
        by_cases hc :
            (pyStrOpt actual ==
              substitute_variables vars (pyStr ev)) = true
        · simp only [hc, if_true]
          exact ih l2 _
        · simp only [Bool.not_eq_true] at hc
          simp only [hc, Bool.false_eq_true, if_false]

/-- If no entry of the list is a save directive writing `name`, the store
carried out of the `body_contains` loop agrees with the input store on
`name`, whatever the outcome. -/
theorem checkBodyContains_lookup_preserve (respJson : PyVal) (name : String) :
    ∀ (items : List (String × PyVal)) (vars : List (String × String)),
      (∀ kv ∈ items, ¬(isSaveDirective kv.2 = true ∧ saveVarName kv.2 = name)) →
      List.lookup name (checkBodyContains respJson items vars).outVars =
        List.lookup name vars := by
  intro items
  induction items with
  | nil => intro vars _; simp [checkBodyContains, CheckOutcome.outVars]
  | cons kv rest ih =>
    intro vars hno
    obtain ⟨key, ev⟩ := kv
    have hno_head := hno (key, ev) (by simp)
    have hno_rest : ∀ kv ∈ rest, ¬(isSaveDirective kv.2 = true ∧ saveVarName kv.2 = name) :=
      fun kv hkv => hno kv (by simp [hkv])
    simp only [checkBodyContains]
    by_cases hsd : isSaveDirective ev
    · have hname : saveVarName ev ≠ name := by
        intro hc
        exact hno_head ⟨hsd, hc⟩
      simp only [hsd, if_true]
      cases hin : pyIn key respJson with
      | error e => simp [CheckOutcome.outVars]
      | ok b =>
        cases b with
        | true =>
          cases hsub : pySubscript key respJson with
          | error e => simp [CheckOutcome.outVars]
          | ok v =>
            rw [ih _ hno_rest]
            exact lookup_varSet_ne (fun hc => hname hc.symm) vars (pyStr v)
        | false => exact ih _ hno_rest
    · simp only [hsd, if_false, Bool.false_eq_true]
      cases hget : pyGet key respJson with
      | error e => simp [CheckOutcome.outVars]
      | ok actual =>
        by_cases hc :
            (pyStrOpt actual ==
              substitute_variables vars (pyStr ev)) = true
        · simp only [hc, if_true]
          exact ih _ hno_rest
        · simp only [Bool.not_eq_true] at hc
          simp only [hc, Bool.false_eq_true, if_false, CheckOutcome.outVars]

/-- A step loop that reports overall success recorded one result per
step. -/
theorem run_steps_ok_length
    (exec1 : List (String × String) → Step → StepResult × List (String × String)) :
    ∀ (steps : List Step) (vars : List (String × String)) rs vars',
      run_steps exec1 steps vars = (rs, vars', true) → rs.length = steps.length := by
  intro steps
  induction steps with
  | nil =>
    intro vars rs vars' h
    simp [run_steps] at h
    simp [h.1]
  | cons s rest ih =>
    intro vars rs vars' h
    rcases hexec : exec1 vars s with ⟨r, v1⟩
    simp only [run_steps, hexec] at h
    by_cases hs : r.success
    · rcases hrs : run_steps exec1 rest v1 with ⟨rs2, v2, ok2⟩
      simp only [hs, if_true, hrs, Prod.mk.injEq] at h
      obtain ⟨h1, _, h3⟩ := h
      rw [← h1]
      simp [ih v1 rs2 v2 (by rw [hrs, h3])]
    · simp only [hs, Bool.false_eq_true, if_false, Prod.mk.injEq] at h
      exact absurd h.2.2 (by simp)

/-- First-failure-stops: when every step of `pre` succeeds and `s` fails,
the loop over `pre ++ s :: post` records the prefix results plus the
failing one, never reaches `post`, and reports failure. -/
theorem run_steps_first_fail
    (exec1 : List (String × String) → Step → StepResult × List (String × String)) :
    ∀ (pre : List Step) (s : Step) (post : List Step) vars rs1 v1 r v2,
      run_steps exec1 pre vars = (rs1, v1, true) →
      exec1 v1 s = (r, v2) → r.success = false →
      run_steps exec1 (pre ++ s :: post) vars = (rs1 ++ [r], v2, false) := by
  intro pre
  induction pre with
  | nil =>
    intro s post vars rs1 v1 r v2 hpre hex hfail
    simp [run_steps] at hpre
    obtain ⟨h1, h2⟩ := hpre
    subst h1
    subst h2
    simp [run_steps, hex, hfail]
  | cons s0 rest ih =>
    intro s post vars rs1 v1 r v2 hpre hex hfail
    rcases hexec : exec1 vars s0 with ⟨r0, v0⟩
    simp only [run_steps, hexec] at hpre
    simp only [List.cons_append, run_steps, hexec, List.append_eq]
    by_cases h0 : r0.success
    · rcases hsteps : run_steps exec1 rest v0 with ⟨rsr, vr, okr⟩
      simp only [h0, if_true, hsteps, Prod.mk.injEq] at hpre
      obtain ⟨h1, h2, h3⟩ := hpre
      rw [ih s post v0 rsr v1 r v2 (by rw [hsteps, h2, h3]) hex hfail]
      simp [h0, ← h1]
    · simp only [h0, Bool.false_eq_true, if_false, Prod.mk.injEq] at hpre
      exact absurd hpre.2.2 (by simp)

/-- When the transport always answers with the same 2xx response,
`_execute_step` reduces to expectation checking of that response. -/
theorem execute_step_resp_ok (base_url : String) (http : HttpRequest → HttpResult)
    (vars : List (String × String)) (step : Step) {m p : List Char}
    {status : Int} {body : String} {json : Option PyVal}
    (hsplit : splitAction step.action.toList = some (m, p))
    (hresp : ∀ r, http r = HttpResult.ok status body json) :
    execute_step base_url http vars step =
      checkResponse step.expect status body json vars := by
  unfold execute_step
  rw [hsplit]
  simp only [hresp]

/-- Same, for a transport that always answers with an `HTTPError` status:
the status is captured from the exception and checked, not raised. -/
theorem execute_step_resp_httpError (base_url : String)
    (http : HttpRequest → HttpResult) (vars : List (String × String)) (step : Step)
    {m p : List Char} {code : Int} {body : String} {json : Option PyVal}
    (hsplit : splitAction step.action.toList = some (m, p))
    (hresp : ∀ r, http r = HttpResult.httpError code body json) :
    execute_step base_url http vars step =
      checkResponse step.expect code body json vars := by
  unfold execute_step
  rw [hsplit]
  simp only [hresp]

/-- A failing status check produces the mismatch error and leaves the
store untouched. -/
theorem checkResponse_status_fail {expect : Expect} {status : Int}
    (body : String) (json : Option PyVal) (vars : List (String × String))
    (hfail : statusCheckFails expect.status status = true) :
    checkResponse expect status body json vars =
      ({ success := false,
         error := some ("Expected status " ++ toString (expect.status.getD 0) ++
           ", got " ++ toString status),
         actual_status := some status,
         response := .text (truncate500 body) }, vars) := by
  simp [checkResponse, hfail]

/-- With the status check passing and a falsy (or absent) parsed body, the
`body_contains` entries are skipped and the step succeeds with the store
untouched. -/
theorem checkResponse_skip {expect : Expect} {status : Int}
    (body : String) {json : Option PyVal} (vars : List (String × String))
    (hok : statusCheckFails expect.status status = false)
    (hfalsy : jsonTruthy json = false) :
    checkResponse expect status body json vars =
      ({ success := true, status := some status, response := .jsonVal json }, vars) := by
  simp [checkResponse, hok, hfalsy]

/-! ## Lemmas: agent loop -/

/-- One tool result is produced per tool-use block. -/
theorem exec_tools_length (texec : String → PyVal → Except String PyVal) :
    ∀ tus : List Block, (∀ b ∈ tus, isToolUse b = true) →
      (exec_tools texec tus).1.length = tus.length := by
  intro tus
  induction tus with
  | nil => intro _; rfl
  | cons b rest ih =>
    intro hall
    cases b with
    | text s =>
      have hts := hall (Block.text s) (by simp)
      simp [isToolUse] at hts
    | tool_use id name input =>
      have hrest := ih (fun b hb => hall b (by simp [hb]))
      cases hx : texec name input with
      | ok result =>
        rcases hr : exec_tools texec rest with ⟨trs, c2, fd2⟩
        simp only [exec_tools, hx, hr] at hrest ⊢
        simp [hrest]
      | error msg =>
        rcases hr : exec_tools texec rest with ⟨trs, c2, fd2⟩
        simp only [exec_tools, hx, hr] at hrest ⊢
        simp [hrest]

/-- The produced tool results carry the ids of the tool calls, in call
order. -/
theorem exec_tools_ids (texec : String → PyVal → Except String PyVal) :
    ∀ tus : List Block, (∀ b ∈ tus, isToolUse b = true) →
      (exec_tools texec tus).1.map (fun tr => tr.tool_use_id) = tus.map blockId := by
  intro tus
  induction tus with
  | nil => intro _; rfl
  | cons b rest ih =>
    intro hall
    cases b with
    | text s =>
      have hts := hall (Block.text s) (by simp)
      simp [isToolUse] at hts
    | tool_use id name input =>
      have hrest := ih (fun b hb => hall b (by simp [hb]))
      cases hx : texec name input with
      | ok result =>
        rcases hr : exec_tools texec rest with ⟨trs, c2, fd2⟩
        simp only [exec_tools, hx, hr] at hrest ⊢
        simp [hrest, blockId]
      | error msg =>
        rcases hr : exec_tools texec rest with ⟨trs, c2, fd2⟩
        simp only [exec_tools, hx, hr] at hrest ⊢
        simp [hrest, blockId]

/-- Without any completion-signalling result, the batch neither sets the
completion flag nor a payload. -/
theorem exec_tools_no_complete (texec : String → PyVal → Except String PyVal) :
    ∀ tus : List Block, noCompleteIn texec tus →
      (exec_tools texec tus).2.1 = false ∧ (exec_tools texec tus).2.2 = none := by
  intro tus
  induction tus with
  | nil => intro _; exact ⟨rfl, rfl⟩
  | cons b rest ih =>
    intro hno
    have hno_rest : noCompleteIn texec rest :=
      fun id name input r hmem hok => hno id name input r (by simp [hmem]) hok
    have hrest := ih hno_rest
    cases b with
    | text s => exact hrest
    | tool_use id name input =>
      cases hx : texec name input with
      | ok result =>
        have hc : isCompleteResult result = false :=
          hno id name input result (by simp) hx
        rcases hr : exec_tools texec rest with ⟨trs, c2, fd2⟩
        have hc2 : c2 = false := by simpa [hr] using hrest.1
        have hfd2 : fd2 = none := by simpa [hr] using hrest.2
        subst hc2
        subst hfd2
        simp [exec_tools, hx, hr, hc]
      | error msg =>
        rcases hr : exec_tools texec rest with ⟨trs, c2, fd2⟩
        have hc2 : c2 = false := by simpa [hr] using hrest.1
        have hfd2 : fd2 = none := by simpa [hr] using hrest.2
        subst hc2
        subst hfd2
        simp [exec_tools, hx, hr]

/-- When the last completion-signalling call of the batch returns `r`, the
batch sets the completion flag and `r` is the final payload. -/
theorem exec_tools_last_complete (texec : String → PyVal → Except String PyVal)
    {id name : String} {input r : PyVal}
    (hx : texec name input = Except.ok r) (hc : isCompleteResult r = true) :
    ∀ pre post : List Block, noCompleteIn texec post →
      (exec_tools texec (pre ++ Block.tool_use id name input :: post)).2.1 = true ∧
      (exec_tools texec (pre ++ Block.tool_use id name input :: post)).2.2 = some r := by
  intro pre
  induction pre with
  | nil =>
    intro post hno
    have hrest := exec_tools_no_complete texec post hno
    rcases hr : exec_tools texec post with ⟨trs, c2, fd2⟩
    have hc2 : c2 = false := by simpa [hr] using hrest.1
    have hfd2 : fd2 = none := by simpa [hr] using hrest.2
    subst hc2
    subst hfd2
    simp [exec_tools, hx, hr, hc]
  | cons b rest ih =>
    intro post hno
    have htail := ih post hno
    cases b with
    | text s => exact htail
    | tool_use id0 name0 input0 =>
      rcases hr : exec_tools texec (rest ++ Block.tool_use id name input :: post)
        with ⟨trs, c2, fd2⟩
      have hc2 : c2 = true := by simpa [hr] using htail.1
      have hfd2 : fd2 = some r := by simpa [hr] using htail.2
      subst hc2
      subst hfd2
      cases hx0 : texec name0 input0 with
      | ok result0 => simp [exec_tools, hx0, hr]
      | error msg0 => simp [exec_tools, hx0, hr]

/-- A tool call whose executor raises does not abort the batch: the results
of the preceding and following calls are unchanged, an error result with
the exception's message stands at the failing call's position, and flag and
payload combine from the other calls only. -/
theorem exec_tools_splice (texec : String → PyVal → Except String PyVal)
    {id name : String} {input : PyVal} {msg : String}
    (hx : texec name input = Except.error msg) :
    ∀ pre post : List Block,
      exec_tools texec (pre ++ Block.tool_use id name input :: post) =
        ((exec_tools texec pre).1 ++
            ⟨id, "Error: " ++ msg, true⟩ :: (exec_tools texec post).1,
          (exec_tools texec pre).2.1 || (exec_tools texec post).2.1,
          combineFd (exec_tools texec pre).2.2 (exec_tools texec post).2.2) := by
  intro pre
  induction pre with
  | nil =>
    intro post
    rcases hr : exec_tools texec post with ⟨trs, c2, fd2⟩
    cases fd2 <;> simp [exec_tools, hx, hr, combineFd]
  | cons b rest ih =>
    intro post
    cases b with
    | text s => exact ih post
    | tool_use id0 name0 input0 =>
      have htail := ih post
      rcases hrp : exec_tools texec rest with ⟨trsp, cp, fdp⟩
      rcases hrq : exec_tools texec post with ⟨trsq, cq, fdq⟩
      rcases hrm : exec_tools texec (rest ++ Block.tool_use id name input :: post)
        with ⟨trsm, cm, fdm⟩
      simp only [hrp, hrq, hrm, Prod.mk.injEq] at htail
      obtain ⟨ht1, ht2, ht3⟩ := htail
      cases hx0 : texec name0 input0 with
      | ok result0 =>
        simp only [List.cons_append, List.append_eq, exec_tools, hx0, hrp, hrq, hrm,
          Prod.mk.injEq]
        refine ⟨by simp [hrm, ht1], by simp [hrm, ht2, Bool.or_assoc], ?_⟩
        rw [ht3]
        cases fdq <;> cases fdp <;> simp [combineFd]
      | error msg0 =>
        simp only [List.cons_append, List.append_eq, exec_tools, hx0, hrp, hrq, hrm,
          Prod.mk.injEq]
        exact ⟨by simp [hrm, ht1], by simp [hrm, ht2], by simp [hrm, ht3]⟩

/-- When every reply requests tools, no reply ends the turn and no tool
result ever signals completion, the loop consumes its whole budget: the
iteration counter advances by exactly the fuel, and neither the completion
flag nor a payload is set. -/
theorem run_loop_budget (llm : List Message → Response)
    (texec : String → PyVal → Except String PyVal)
    (H1 : ∀ msgs, toolUsesOf (llm msgs).content ≠ [])
    (H2 : ∀ msgs, (llm msgs).stop_reason ≠ "end_turn")
    (H3 : ∀ name input r, texec name input = Except.ok r → isCompleteResult r = false) :
    ∀ (fuel iteration : Nat) (msgs : List Message),
      (run_loop llm texec fuel iteration msgs).1 = iteration + fuel ∧
      (run_loop llm texec fuel iteration msgs).2.1 = false ∧
      (run_loop llm texec fuel iteration msgs).2.2.1 = none := by
  intro fuel
  induction fuel with
  | zero => intro iteration msgs; exact ⟨rfl, rfl, rfl⟩
  | succ f ih =>
    intro iteration msgs
    have hne : toolUsesOf (llm msgs).content ≠ [] := H1 msgs
    have hempty : (toolUsesOf (llm msgs).content).isEmpty = false := by
      cases hc : toolUsesOf (llm msgs).content with
      | nil => exact absurd hc hne
      | cons a t => rfl
    have hnc : noCompleteIn texec (toolUsesOf (llm msgs).content) :=
      fun id name input r _ hok => H3 name input r hok
    have hflag := exec_tools_no_complete texec _ hnc
    rcases hr : exec_tools texec (toolUsesOf (llm msgs).content) with ⟨trs, c2, fd2⟩
    have hc2 : c2 = false := by simpa [hr] using hflag.1
    subst hc2
    have hstop : ((llm msgs).stop_reason == "end_turn") = false :=
      beq_eq_false_iff_ne.mpr (H2 msgs)
    have hred : run_loop llm texec (f + 1) iteration msgs =
        run_loop llm texec f (iteration + 1)
          (msgs ++ [⟨"assistant", .ofBlocks (llm msgs).content⟩]
            ++ [⟨"user", .ofToolResults trs⟩]) := by
      simp [run_loop, hempty, hr, hstop]
    rw [hred]
    have := ih (iteration + 1)
      (msgs ++ [⟨"assistant", .ofBlocks (llm msgs).content⟩]
        ++ [⟨"user", .ofToolResults trs⟩])
    refine ⟨?_, this.2⟩
    rw [this.1]
    omega

/-- The loop only ever appends to the transcript. -/
theorem run_loop_transcript_extends (llm : List Message → Response)
    (texec : String → PyVal → Except String PyVal) :
    ∀ (fuel iteration : Nat) (msgs : List Message),
      ∃ rest : List Message,
        (run_loop llm texec fuel iteration msgs).2.2.2 = msgs ++ rest := by
  intro fuel
  induction fuel with
  | zero => intro iteration msgs; exact ⟨[], by simp [run_loop]⟩
  | succ f ih =>
    intro iteration msgs
    by_cases hempty : (toolUsesOf (llm msgs).content).isEmpty
    · exact ⟨[⟨"assistant", .ofBlocks (llm msgs).content⟩], by simp [run_loop, hempty]⟩
    · rcases hr : exec_tools texec (toolUsesOf (llm msgs).content) with ⟨trs, isC, fd⟩
      simp only [Bool.not_eq_true] at hempty
      by_cases hisC : isC
      · refine ⟨[⟨"assistant", .ofBlocks (llm msgs).content⟩, ⟨"user", .ofToolResults trs⟩],
          ?_⟩
        simp [run_loop, hempty, hr, hisC]
      · simp only [Bool.not_eq_true] at hisC
        subst hisC
        by_cases hstop : (llm msgs).stop_reason == "end_turn"
        · refine ⟨[⟨"assistant", .ofBlocks (llm msgs).content⟩,
            ⟨"user", .ofToolResults trs⟩], ?_⟩
          simp [run_loop, hempty, hr, hstop]
        · simp only [Bool.not_eq_true] at hstop
          obtain ⟨tail, htail⟩ := ih (iteration + 1)
            (msgs ++ [⟨"assistant", .ofBlocks (llm msgs).content⟩]
              ++ [⟨"user", .ofToolResults trs⟩])
          refine ⟨[⟨"assistant", .ofBlocks (llm msgs).content⟩,
            ⟨"user", .ofToolResults trs⟩] ++ tail, ?_⟩
          have hred : run_loop llm texec (f + 1) iteration msgs =
              run_loop llm texec f (iteration + 1)
                (msgs ++ [⟨"assistant", .ofBlocks (llm msgs).content⟩]
                  ++ [⟨"user", .ofToolResults trs⟩]) := by
            simp [run_loop, hempty, hr, hstop]
          rw [hred, htail]
          simp

/-- A batch that set the completion flag stops the loop in the same pass:
the assistant turn and a single user turn holding all tool results are
appended, and the loop returns complete with the recorded payload. -/
theorem run_loop_complete_stop (llm : List Message → Response)
    (texec : String → PyVal → Except String PyVal)
    (fuel iteration : Nat) (msgs : List Message)
    {trs : List ToolResult} {fd : Option PyVal}
    (hne : toolUsesOf (llm msgs).content ≠ [])
    (hexec : exec_tools texec (toolUsesOf (llm msgs).content) = (trs, true, fd)) :
    run_loop llm texec (fuel + 1) iteration msgs =
      (iteration + 1, true, fd,
        msgs ++ [⟨"assistant", .ofBlocks (llm msgs).content⟩]
          ++ [⟨"user", .ofToolResults trs⟩]) := by
  have hempty : (toolUsesOf (llm msgs).content).isEmpty = false := by
    cases hc : toolUsesOf (llm msgs).content with
    | nil => exact absurd hc hne
    | cons a t => rfl
  simp [run_loop, hempty, hexec]

/-- A batch that did not set the completion flag, with a stop reason other
than `end_turn`, lets the loop continue into the next pass on the extended
transcript. -/
theorem run_loop_continue (llm : List Message → Response)
    (texec : String → PyVal → Except String PyVal)
    (fuel iteration : Nat) (msgs : List Message)
    {trs : List ToolResult} {fd : Option PyVal}
    (hne : toolUsesOf (llm msgs).content ≠ [])
    (hexec : exec_tools texec (toolUsesOf (llm msgs).content) = (trs, false, fd))
    (hstop : (llm msgs).stop_reason ≠ "end_turn") :
    run_loop llm texec (fuel + 1) iteration msgs =
      run_loop llm texec fuel (iteration + 1)
        (msgs ++ [⟨"assistant", .ofBlocks (llm msgs).content⟩]
          ++ [⟨"user", .ofToolResults trs⟩]) := by
  have hempty : (toolUsesOf (llm msgs).content).isEmpty = false := by
    cases hc : toolUsesOf (llm msgs).content with
    | nil => exact absurd hc hne
    | cons a t => rfl
  have hstop' : ((llm msgs).stop_reason == "end_turn") = false :=
    beq_eq_false_iff_ne.mpr hstop
  simp [run_loop, hempty, hexec, hstop']

/-! ## Claims -/

/-- C2: when the batch of tool calls of a model turn sets the completion
flag, the loop still produces one ToolResult per ToolCall, in call order,
appends all of them as one single user message after the assistant turn,
and only then stops, returning the (last) completion-signalling raw result
as the payload. -/
theorem claim_C2_complete_batch (llm : List Message → Response)
    (texec : String → PyVal → Except String PyVal)
    (fuel iteration : Nat) (msgs : List Message)
    (tus : List Block) (trs : List ToolResult) (fd : Option PyVal)
    (htus : toolUsesOf (llm msgs).content = tus)
    (hne : tus ≠ [])
    (hexec : exec_tools texec tus = (trs, true, fd)) :
    run_loop llm texec (fuel + 1) iteration msgs =
      (iteration + 1, true, fd,
        msgs ++ [⟨"assistant", .ofBlocks (llm msgs).content⟩]
          ++ [⟨"user", .ofToolResults trs⟩]) ∧
    trs.length = tus.length ∧
    trs.map (fun tr => tr.tool_use_id) = tus.map blockId ∧
    (∀ (pre : List Block) (id name : String) (input r : PyVal) (post : List Block),
      tus = pre ++ Block.tool_use id name input :: post →
      texec name input = Except.ok r → isCompleteResult r = true →
      noCompleteIn texec post → fd = some r) := by
  have hall : ∀ b ∈ tus, isToolUse b = true := by
    intro b hb
    rw [← htus] at hb
    exact (List.mem_filter.mp hb).2
  refine ⟨?_, ?_, ?_, ?_⟩
  · exact run_loop_complete_stop llm texec fuel iteration msgs
      (by rw [htus]; exact hne) (by rw [htus]; exact hexec)
  · have h := exec_tools_length texec tus hall
    rw [hexec] at h
    simpa using h
  · have h := exec_tools_ids texec tus hall
    rw [hexec] at h
    simpa using h
  · intro pre id name input r post hsplit hok hc hnc
    have h := @exec_tools_last_complete texec id name input r hok hc pre post hnc
    rw [← hsplit, hexec] at h
    simpa using h.2

/-- C2 witness: two tool calls, each returning `complete=true`; the loop
stops after one iteration with both results answered and the payload set. -/
theorem claim_C2_witness :
    toolUsesOf (llmTwo []).content =
      [Block.tool_use "t1" "a" PyVal.null, Block.tool_use "t2" "b" PyVal.null] ∧
    (run_loop llmTwo texecComplete 3 0 []).1 = 1 ∧
    (run_loop llmTwo texecComplete 3 0 []).2.1 = true ∧
    (run_loop llmTwo texecComplete 3 0 []).2.2.1 = some completePayload := by
  have h := claim_C2_complete_batch llmTwo texecComplete 2 0 []
    [Block.tool_use "t1" "a" PyVal.null, Block.tool_use "t2" "b" PyVal.null]
    [⟨"t1", truncateResult (pyStr completePayload), false⟩,
      ⟨"t2", truncateResult (pyStr completePayload), false⟩]
    (some completePayload) rfl (by simp) rfl
  refine ⟨rfl, ?_, ?_, ?_⟩ <;> rw [h.1]

/-- C3: with an LLM that always requests tools, never ends its turn, and a
tool executor that never signals completion, the loop runs for exactly
`max_iterations` iterations and the run reports `success = false` with
`iterations = max_iterations`. -/
theorem claim_C3_budget_exhaustion (llm : List Message → Response)
    (texec : String → PyVal → Except String PyVal)
    (max_iterations : Nat) (messages0 : List Message) (initial_prompt : String)
    (hmax : 1 ≤ max_iterations)
    (H1 : ∀ msgs, toolUsesOf (llm msgs).content ≠ [])
    (H2 : ∀ msgs, (llm msgs).stop_reason ≠ "end_turn")
    (H3 : ∀ name input r, texec name input = Except.ok r →
      isCompleteResult r = false) :
    (agent_run llm texec max_iterations messages0 initial_prompt).1.iterations =
      max_iterations ∧
    (agent_run llm texec max_iterations messages0 initial_prompt).1.success = false := by
  have h := run_loop_budget llm texec H1 H2 H3 max_iterations 0
    (messages0 ++ [⟨"user", .ofText initial_prompt⟩])
  rcases hr : run_loop llm texec max_iterations 0
      (messages0 ++ [⟨"user", .ofText initial_prompt⟩]) with ⟨it, isC, fd, msgsF⟩
  have hit : it = max_iterations := by simpa [hr] using h.1
  have hisC : isC = false := by simpa [hr] using h.2.1
  subst hit
  subst hisC
  constructor
  · simp [agent_run, hr]
  · simp [agent_run, hr]

/-- C3 witness: budget 2, constant tool-requesting LLM, never-completing
executor. -/
theorem claim_C3_witness :
    1 ≤ 2 ∧
    (agent_run llmLoop texecNull 2 [] "go").1.iterations = 2 ∧
    (agent_run llmLoop texecNull 2 [] "go").1.success = false := by
  have h := claim_C3_budget_exhaustion llmLoop texecNull 2 [] "go"
    (by decide)
    (fun _ => by
      show ([Block.tool_use "t1" "tool" PyVal.null] : List Block) ≠ []
      simp)
    (fun _ => by
      show ("tool_use" : String) ≠ "end_turn"
      decide)
    (fun name input r hx => by cases hx; rfl)
  exact ⟨by decide, h.1, h.2⟩

/-- C6 (amended): when the first reply carries no tool-use blocks the run
returns after exactly 1 iteration, and `success` is true exactly when
`max_iterations ≥ 2` — at `max_iterations = 1` the graceful stop is
reported as `success = false`, because success is computed as
`is_complete or iteration < max_iterations`. -/
theorem claim_C6_amended (llm : List Message → Response)
    (texec : String → PyVal → Except String PyVal)
    (max_iterations : Nat) (messages0 : List Message) (initial_prompt : String)
    (hmax : 1 ≤ max_iterations)
    (hnotool :
      toolUsesOf (llm (messages0 ++ [⟨"user", .ofText initial_prompt⟩])).content = []) :
    (agent_run llm texec max_iterations messages0 initial_prompt).1.iterations = 1 ∧
    (agent_run llm texec max_iterations messages0 initial_prompt).1.success =
      decide (1 < max_iterations) := by
  obtain ⟨m, rfl⟩ : ∃ m, max_iterations = m + 1 := ⟨max_iterations - 1, by omega⟩
  have hempty :
      (toolUsesOf (llm (messages0 ++ [⟨"user", .ofText initial_prompt⟩])).content).isEmpty
        = true := by
    rw [hnotool]
    rfl
  have hloop : run_loop llm texec (m + 1) 0
      (messages0 ++ [⟨"user", .ofText initial_prompt⟩]) =
      (1, false, none,
        (messages0 ++ [⟨"user", .ofText initial_prompt⟩]) ++
          [⟨"assistant",
            .ofBlocks (llm (messages0 ++ [⟨"user", .ofText initial_prompt⟩])).content⟩]) := by
    simp [run_loop, hempty]
  constructor
  · simp [agent_run, hloop]
  · simp [agent_run, hloop]

/-- C6 counterexample: with `max_iterations = 1` a first reply without
tool-use blocks yields `success = false` after 1 iteration, not the
`success = true` the claim states for every `max_iterations ≥ 1`. -/
theorem claim_C6_counterexample :
    (agent_run llmNoTool texecNull 1 [] "task").1.iterations = 1 ∧
    (agent_run llmNoTool texecNull 1 [] "task").1.success = false :=
  ⟨rfl, rfl⟩

/-- C6 witness: at `max_iterations = 2` the graceful stop is reported as a
success after exactly one iteration. -/
theorem claim_C6_witness :
    1 ≤ 2 ∧
    toolUsesOf (llmNoTool ([] ++ [⟨"user", MsgContent.ofText "task"⟩])).content = [] ∧
    (agent_run llmNoTool texecNull 2 [] "task").1.iterations = 1 ∧
    (agent_run llmNoTool texecNull 2 [] "task").1.success = true := by
  have h := claim_C6_amended llmNoTool texecNull 2 [] "task" (by decide) rfl
  exact ⟨by decide, rfl, h.1, by rw [h.2]; decide⟩

/-- C7: a tool executor exception for one ToolCall yields an error
ToolResult (isError, message in content) at that call's position, the
remaining ToolCalls of the turn are still executed with their results
unchanged, and — when the turn carries no completion and no `end_turn`
stop — the loop continues instead of aborting the run. -/
theorem claim_C7_tool_exception (texec : String → PyVal → Except String PyVal)
    (id name : String) (input : PyVal) (msg : String)
    (hx : texec name input = Except.error msg)
    (pre post : List Block) :
    exec_tools texec (pre ++ Block.tool_use id name input :: post) =
      ((exec_tools texec pre).1 ++
          ⟨id, "Error: " ++ msg, true⟩ :: (exec_tools texec post).1,
        (exec_tools texec pre).2.1 || (exec_tools texec post).2.1,
        combineFd (exec_tools texec pre).2.2 (exec_tools texec post).2.2) ∧
    (∀ (llm : List Message → Response) (fuel iteration : Nat)
        (msgs : List Message) (trs : List ToolResult) (fd : Option PyVal),
      toolUsesOf (llm msgs).content = pre ++ Block.tool_use id name input :: post →
      exec_tools texec (pre ++ Block.tool_use id name input :: post) = (trs, false, fd) →
      (llm msgs).stop_reason ≠ "end_turn" →
      run_loop llm texec (fuel + 1) iteration msgs =
        run_loop llm texec fuel (iteration + 1)
          (msgs ++ [⟨"assistant", .ofBlocks (llm msgs).content⟩]
            ++ [⟨"user", .ofToolResults trs⟩])) := by
  refine ⟨exec_tools_splice texec hx pre post, ?_⟩
  intro llm fuel iteration msgs trs fd htus hexec hstop
  exact run_loop_continue llm texec fuel iteration msgs
    (by rw [htus]; simp) (by rw [htus]; exact hexec) hstop

/-- C7 witness: three tool calls where the middle one raises; the batch
result holds the error ToolResult in the middle and the neighbours'
results. -/
theorem claim_C7_witness :
    texecErr "boom" PyVal.null = Except.error "kaput" ∧
    (exec_tools texecErr (preW ++ Block.tool_use "t2" "boom" PyVal.null :: postW)).1 =
      [⟨"t1", "None", false⟩, ⟨"t2", "Error: kaput", true⟩, ⟨"t3", "None", false⟩] ∧
    (exec_tools texecErr (preW ++ Block.tool_use "t2" "boom" PyVal.null :: postW)).2.1 =
      false := by
  have h := claim_C7_tool_exception texecErr "t2" "boom" PyVal.null "kaput" rfl preW postW
  refine ⟨rfl, ?_, ?_⟩ <;> (rw [h.1]; rfl)

/-- C9 (amended): `self.messages` persists on the agent across `run()`
calls — a run appends its user message (and everything after it) to the
existing transcript rather than starting fresh; only `reset()` (or a fresh
instance) makes `run()` start from exactly one user message. -/
theorem claim_C9_amended (llm : List Message → Response)
    (texec : String → PyVal → Except String PyVal)
    (max_iterations : Nat) (messages0 : List Message) (initial_prompt : String) :
    (∃ rest : List Message,
      (agent_run llm texec max_iterations messages0 initial_prompt).2 =
        messages0 ++ ⟨"user", .ofText initial_prompt⟩ :: rest) ∧
    agent_run llm texec max_iterations (agent_reset messages0) initial_prompt =
      agent_run llm texec max_iterations [] initial_prompt := by
  constructor
  · obtain ⟨rest, hrest⟩ := run_loop_transcript_extends llm texec max_iterations 0
      (messages0 ++ [⟨"user", .ofText initial_prompt⟩])
    refine ⟨rest, ?_⟩
    rcases hr : run_loop llm texec max_iterations 0
        (messages0 ++ [⟨"user", .ofText initial_prompt⟩]) with ⟨it, isC, fd, msgsF⟩
    have hm : msgsF =
        (messages0 ++ [⟨"user", .ofText initial_prompt⟩]) ++ rest := by
      simpa [hr] using hrest
    simp [agent_run, hr, hm]
  · rfl

/-- C9 counterexample: the same `run()` call observably depends on the
messages left by an earlier `run()` on the same instance — the transcript
is not created fresh per invocation. -/
theorem claim_C9_counterexample :
    (agent_run llm9 texecNull 2 ((agent_run llm9 texecNull 2 [] "p").2) "p").1.final_message
      = "long" ∧
    (agent_run llm9 texecNull 2 [] "p").1.final_message = "short" :=
  ⟨rfl, rfl⟩

/-- C1: when every step of the prefix `pre` succeeds and the next step
fails, `run_workflow` returns `success = false` with exactly
`pre.length + 1` recorded StepResults (the prefix results plus the failing
one), and the steps after the failing one are never executed: the result is
the same as for the workflow truncated right after the failing step. -/
theorem claim_C1_first_failure
    (exec1 : List (String × String) → Step → StepResult × List (String × String))
    (wf : Workflow) (pre : List Step) (s : Step) (post : List Step)
    (rs1 : List StepResult) (v1 : List (String × String)) (r : StepResult)
    (v2 : List (String × String))
    (hsteps : wf.steps = pre ++ s :: post)
    (hpre : run_steps exec1 pre BUILTIN_VARIABLES = (rs1, v1, true))
    (hfail : exec1 v1 s = (r, v2)) (hr : r.success = false) :
    run_workflow exec1 wf =
      ⟨wf.name, wf.description, wf.category, false, rs1 ++ [r]⟩ ∧
    (rs1 ++ [r]).length = pre.length + 1 ∧
    run_workflow exec1 wf = run_workflow exec1 { wf with steps := pre ++ [s] } := by
  have hmain := run_steps_first_fail exec1 pre s post BUILTIN_VARIABLES rs1 v1 r v2
    hpre hfail hr
  have hmain0 := run_steps_first_fail exec1 pre s [] BUILTIN_VARIABLES rs1 v1 r v2
    hpre hfail hr
  have hlen := run_steps_ok_length exec1 pre BUILTIN_VARIABLES rs1 v1 hpre
  refine ⟨?_, ?_, ?_⟩
  · simp [run_workflow, hsteps, hmain]
  · simp [hlen]
  · simp [run_workflow, hsteps, hmain, hmain0]

/-- C1 witness: a 3-step workflow failing at step 2 records exactly 2
results and equals the run of its 2-step truncation. -/
theorem claim_C1_witness :
    run_steps exec1W [stepOk] BUILTIN_VARIABLES =
      ([{ success := true }], BUILTIN_VARIABLES, true) ∧
    ({ success := false } : StepResult).success = false ∧
    (run_workflow exec1W wfC1).success = false ∧
    (run_workflow exec1W wfC1).steps.length = 2 := by
  have h := claim_C1_first_failure exec1W wfC1 [stepOk] stepBad [stepOk]
    [{ success := true }] BUILTIN_VARIABLES { success := false } BUILTIN_VARIABLES
    rfl rfl rfl rfl
  refine ⟨rfl, rfl, ?_, ?_⟩
  · rw [h.1]
  · rw [h.1]
    exact h.2.1

/-- C5 (amended): a present *nonzero* expected status that differs from
the actual one fails the step with the exact message
`Expected status <expected>, got <actual>`; an `HTTPError` status (4xx/5xx)
is captured and checked the same way instead of being raised; and in
scenario B (expect 200, backend 404) the workflow fails with that single
recorded result. -/
theorem claim_C5_status_mismatch :
    (∀ (base_url : String) (http : HttpRequest → HttpResult)
        (vars : List (String × String)) (step : Step) (m p : List Char)
        (status : Int) (body : String) (json : Option PyVal) (e : Int),
      splitAction step.action.toList = some (m, p) →
      (∀ r, http r = HttpResult.ok status body json) →
      step.expect.status = some e → e ≠ 0 → status ≠ e →
      execute_step base_url http vars step =
        ({ success := false,
           error := some ("Expected status " ++ toString e ++ ", got " ++
             toString status),
           actual_status := some status,
           response := .text (truncate500 body) }, vars)) ∧
    (∀ (base_url : String) (http : HttpRequest → HttpResult)
        (vars : List (String × String)) (step : Step) (m p : List Char)
        (code : Int) (body : String) (json : Option PyVal) (e : Int),
      splitAction step.action.toList = some (m, p) →
      (∀ r, http r = HttpResult.httpError code body json) →
      step.expect.status = some e → e ≠ 0 → code ≠ e →
      execute_step base_url http vars step =
        ({ success := false,
           error := some ("Expected status " ++ toString e ++ ", got " ++
             toString code),
           actual_status := some code,
           response := .text (truncate500 body) }, vars)) ∧
    run_workflow_http "" http404 wfB =
      ⟨"scenario-b", "", "unknown", false,
        [{ success := false, error := some "Expected status 200, got 404",
           actual_status := some 404, response := .text "Not Found" }]⟩ := by
  refine ⟨?_, ?_, ?_⟩
  · intro base_url http vars step m p status body json e hsplit hresp hst he hne
    rw [execute_step_resp_ok base_url http vars step hsplit hresp]
    have hfail : statusCheckFails step.expect.status status = true := by
      simp [statusCheckFails, hst, bne_iff_ne, he, hne]
    rw [checkResponse_status_fail body json vars hfail]
    simp [hst]
  · intro base_url http vars step m p code body json e hsplit hresp hst he hne
    rw [execute_step_resp_httpError base_url http vars step hsplit hresp]
    have hfail : statusCheckFails step.expect.status code = true := by
      simp [statusCheckFails, hst, bne_iff_ne, he, hne]
    rw [checkResponse_status_fail body json vars hfail]
    simp [hst]
  · rfl

/-- C5 witness: a concrete 500-vs-200 mismatch through the `HTTPError`
path. -/
theorem claim_C5_witness :
    splitAction stepB.action.toList =
      some (['G', 'E', 'T'], ['/', 'p', 'e', 't', 's', '/', '1']) ∧
    (200 : Int) ≠ 0 ∧ (404 : Int) ≠ 200 ∧
    execute_step "" http404 BUILTIN_VARIABLES stepB =
      ({ success := false, error := some "Expected status 200, got 404",
         actual_status := some 404, response := .text "Not Found" },
        BUILTIN_VARIABLES) := by
  refine ⟨rfl, by decide, by decide, ?_⟩
  exact (claim_C5_status_mismatch.2.1 "" http404 BUILTIN_VARIABLES stepB
    ['G', 'E', 'T'] ['/', 'p', 'e', 't', 's', '/', '1'] 404 "Not Found" none 200
    rfl (fun _ => rfl) rfl (by decide) (by decide))

/-- C5 counterexample: the claim as stated fails when the present expected
status is the falsy integer 0 — the code's truthiness guard skips the
check, the differing actual status 404 notwithstanding, and the step
succeeds. -/
theorem claim_C5_counterexample :
    stepZero.expect.status = some 0 ∧ (404 : Int) ≠ 0 ∧
    (execute_step "" http404 BUILTIN_VARIABLES stepZero).1.success = true :=
  ⟨rfl, by decide, rfl⟩

/-- C10 (amended): `body_contains` entries are skipped exactly when the
parsed response is absent or falsy (`None`, `\x7b\x7d`, `0`, `""`, `[]`) —
then the step's outcome is the status check's alone and the store is
untouched; but for a *truthy non-object* parsed value (e.g. a non-zero
number) a comparison entry is still processed and raises, failing the step
with a `Request failed:` error rather than being skipped. -/
theorem claim_C10_falsy_json_skips (base_url : String)
    (http : HttpRequest → HttpResult) (vars : List (String × String))
    (step : Step) (m p : List Char) (status : Int) (body : String)
    (json : Option PyVal)
    (hsplit : splitAction step.action.toList = some (m, p))
    (hresp : ∀ r, http r = HttpResult.ok status body json)
    (hok : statusCheckFails step.expect.status status = false) :
    (jsonTruthy json = false →
      execute_step base_url http vars step =
        ({ success := true, status := some status, response := .jsonVal json },
          vars)) ∧
    (∀ (v : PyVal) (key : String) (ev : PyVal) (rest : List (String × PyVal)),
      json = some v → v.truthy = true → v.isDict = false →
      step.expect.body_contains = (key, ev) :: rest →
      isSaveDirective ev = false →
      execute_step base_url http vars step =
        ({ success := false,
           error := some ("Request failed: " ++ pyExcStr PyExc.attributeError) },
          vars)) := by
  constructor
  · intro hfalsy
    rw [execute_step_resp_ok base_url http vars step hsplit hresp]
    exact checkResponse_skip body vars hok hfalsy
  · intro v key ev rest hjson htruthy hnod hbc hsd
    rw [execute_step_resp_ok base_url http vars step hsplit hresp]
    subst hjson
    have hguard : (!step.expect.body_contains.isEmpty &&
        jsonTruthy (some v)) = true := by
      rw [hbc]
      simp [jsonTruthy, htruthy]
    have hget : pyGet key v = Except.error PyExc.attributeError := by
      cases v <;> simp_all [pyGet, PyVal.isDict]
    have hbody : checkBodyContains v step.expect.body_contains vars =
        CheckOutcome.raised vars PyExc.attributeError := by
      rw [hbc]
      simp [checkBodyContains, hsd, hget]
    simp [checkResponse, hok, hguard, hbody]

/-- C10 witness: an unparseable body (JSON `none`) leaves a
`body_contains`-bearing step to succeed on the status check alone. -/
theorem claim_C10_witness :
    jsonTruthy none = false ∧
    statusCheckFails stepNum.expect.status 200 = false ∧
    execute_step "" (fun _ => HttpResult.ok 200 "oops" none) BUILTIN_VARIABLES stepNum =
      ({ success := true, status := some 200, response := .jsonVal none },
        BUILTIN_VARIABLES) := by
  refine ⟨rfl, rfl, ?_⟩
  exact (claim_C10_falsy_json_skips "" (fun _ => HttpResult.ok 200 "oops" none)
    BUILTIN_VARIABLES stepNum ['G', 'E', 'T'] ['/', 'n'] 200 "oops" none
    rfl (fun _ => rfl) rfl).1 rfl

/-- C10 counterexample: a response body parsing to the truthy non-object
`5` is not skipped — the comparison entry raises and the step fails with a
`Request failed` error although its status check passed, contradicting the
claim that success is then determined by the status check alone. -/
theorem claim_C10_counterexample :
    statusCheckFails stepNum.expect.status 200 = false ∧
    (execute_step "" httpNum BUILTIN_VARIABLES stepNum).1.success = false ∧
    (execute_step "" httpNum BUILTIN_VARIABLES stepNum).1.error =
      some "Request failed: AttributeError" :=
  ⟨rfl, rfl, rfl⟩

/-- C8: template substitution is a pure function of the store — a text
the placeholder pattern matches nowhere in is returned unchanged, an
unresolved placeholder is left verbatim (no error), and the object variant
recurses through dicts and lists while leaving non-string scalars
untouched. -/
theorem claim_C8_substitution (vars : List (String × String)) :
    (∀ s : String, hasPlaceholder s.toList = false →
      substitute_variables vars s = s) ∧
    (∀ name : String, name.toList ≠ [] → (∀ c ∈ name.toList, c ≠ '}') →
      List.lookup name vars = none →
      substitute_variables vars (placeholderOf name) = placeholderOf name) ∧
    (∀ s : String, substitute_variables_in_obj vars (.str s) =
      .str (substitute_variables vars s)) ∧
    (∀ kvs : List (String × PyVal), substitute_variables_in_obj vars (.dict kvs) =
      .dict (kvs.map (fun kv => (kv.1, substitute_variables_in_obj vars kv.2)))) ∧
    (∀ l : List PyVal, substitute_variables_in_obj vars (.list l) =
      .list (l.map (substitute_variables_in_obj vars))) ∧
    (∀ n : Int, substitute_variables_in_obj vars (.int n) = .int n) ∧
    (∀ b : Bool, substitute_variables_in_obj vars (.bool b) = .bool b) ∧
    substitute_variables_in_obj vars .null = .null := by
  refine ⟨?_, ?_, fun s => rfl, ?_, ?_, fun n => rfl, fun b => rfl, rfl⟩
  · intro s h
    rw [substitute_variables, substVarsChars_id_of_no_match vars _ h]
    exact string_mk_toList s
  · intro name hne hall hlk
    rw [substitute_variables]
    have htl : (placeholderOf name).toList =
        '{' :: '{' :: (name.toList ++ ['}', '}']) := rfl
    rw [htl, substVarsChars_verbatim vars hne hall
      (by rw [string_mk_toList]; exact hlk)]
    rfl
  · intro kvs
    simp [substitute_variables_in_obj, substObjDict_eq_map]
  · intro l
    simp [substitute_variables_in_obj, substObjList_eq_map]

/-- C8 witness: concrete match-free text, unresolved placeholder, and a
non-string scalar. -/
theorem claim_C8_witness :
    hasPlaceholder ("abc".toList) = false ∧
    substitute_variables [("x", "1")] "abc" = "abc" ∧
    List.lookup "zz" ([("x", "1")] : List (String × String)) = none ∧
    substitute_variables [("x", "1")] (placeholderOf "zz") = placeholderOf "zz" ∧
    substitute_variables_in_obj [("x", "1")] (.int 7) = .int 7 := by
  refine ⟨by decide, ?_, rfl, ?_, ?_⟩
  · exact (claim_C8_substitution [("x", "1")]).1 "abc" (by decide)
  · exact (claim_C8_substitution [("x", "1")]).2.1 "zz" (by decide) (by decide) rfl
  · exact (claim_C8_substitution [("x", "1")]).2.2.2.2.2.1 7

/-- C4 (amended): a failing status check leaves the Variable Store
untouched; and a `\x7b\x7bsave:NAME\x7d\x7d` entry writes
`str(response[field])` under NAME whenever the status check passed, the
field is present in the parsed JSON object, *all `body_contains` entries
before it passed their comparison*, and no later entry captures to the same
NAME (a later failure of the step does not undo the write). -/
theorem claim_C4_capture_semantics (base_url : String)
    (http : HttpRequest → HttpResult) (vars : List (String × String))
    (step : Step) (m p : List Char) (status : Int) (body : String)
    (json : Option PyVal)
    (hsplit : splitAction step.action.toList = some (m, p))
    (hresp : ∀ r, http r = HttpResult.ok status body json) :
    (statusCheckFails step.expect.status status = true →
      (execute_step base_url http vars step).2 = vars ∧
      (execute_step base_url http vars step).1.success = false) ∧
    (∀ (kvs pre post : List (String × PyVal)) (key sv : String) (v : PyVal)
        (vars1 : List (String × String)),
      statusCheckFails step.expect.status status = false →
      json = some (PyVal.dict kvs) →
      step.expect.body_contains = pre ++ (key, PyVal.str sv) :: post →
      isSaveDirective (PyVal.str sv) = true →
      List.lookup key kvs = some v →
      checkBodyContains (PyVal.dict kvs) pre vars = CheckOutcome.passed vars1 →
      (∀ kv ∈ post, ¬(isSaveDirective kv.2 = true ∧
        saveVarName kv.2 = saveVarName (PyVal.str sv))) →
      List.lookup (saveVarName (PyVal.str sv))
        (execute_step base_url http vars step).2 = some (pyStr v)) := by
  constructor
  · intro hfail
    rw [execute_step_resp_ok base_url http vars step hsplit hresp,
      checkResponse_status_fail body json vars hfail]
    exact ⟨rfl, rfl⟩
  · intro kvs pre post key sv v vars1 hok hjson hbc hsd hlkp hpass hno
    rw [execute_step_resp_ok base_url http vars step hsplit hresp]
    subst hjson
    have hkne : kvs ≠ [] := ne_nil_of_lookup_some hlkp
    have hguard : (!step.expect.body_contains.isEmpty &&
        jsonTruthy (some (PyVal.dict kvs))) = true := by
      rw [hbc]
      simp [jsonTruthy, PyVal.truthy, hkne]
    have hin : pyIn key (PyVal.dict kvs) = .ok true := by
      simp [pyIn, any_beq_of_lookup_some hlkp]
    have hsub : pySubscript key (PyVal.dict kvs) = .ok v := by
      simp [pySubscript, hlkp]
    have hchain : checkBodyContains (PyVal.dict kvs) step.expect.body_contains vars =
        checkBodyContains (PyVal.dict kvs) post
          (varSet vars1 (saveVarName (PyVal.str sv)) (pyStr v)) := by
      rw [hbc, checkBodyContains_append, hpass]
      simp [checkBodyContains, hsd, hin, hsub]
    have hfinal := checkBodyContains_lookup_preserve (PyVal.dict kvs)
      (saveVarName (PyVal.str sv)) post
      (varSet vars1 (saveVarName (PyVal.str sv)) (pyStr v)) hno
    rcases hpost : checkBodyContains (PyVal.dict kvs) post
        (varSet vars1 (saveVarName (PyVal.str sv)) (pyStr v))
      with v3 | ⟨v3, err⟩ | ⟨v3, e⟩ <;>
      rw [hpost] at hchain <;>
      · have hfin2 : List.lookup (saveVarName (PyVal.str sv)) v3 = some (pyStr v) := by
          rw [hpost] at hfinal
          simpa [CheckOutcome.outVars, lookup_varSet_self] using hfinal
        simp [checkResponse, hok, hguard, hchain, hfin2]

/-- C4 witness: a single capture entry on a matching 200 response writes
the stringified field value into the store. -/
theorem claim_C4_witness :
    saveVarName (PyVal.str saveNmStr) = "nm" ∧
    isSaveDirective (PyVal.str saveNmStr) = true ∧
    List.lookup "nm" (execute_step "" httpC4w BUILTIN_VARIABLES stepC4w).2 =
      some "z" := by
  have h := (claim_C4_capture_semantics "" httpC4w BUILTIN_VARIABLES stepC4w
    ['G', 'E', 'T'] ['/', 'c'] 200 "resp" (some (.dict [("b", .str "z")]))
    rfl (fun _ => rfl)).2 [("b", PyVal.str "z")] [] [] "b" saveNmStr (PyVal.str "z")
    BUILTIN_VARIABLES rfl rfl rfl rfl rfl rfl (by simp)
  exact ⟨rfl, rfl, h⟩

/-- C4 counterexample: status check passed and field `b` present, yet the
directive `\x7b\x7bsave:nm\x7d\x7d` writes nothing because the earlier
`body_contains` entry fails its comparison first and the loop returns
before reaching the capture — refuting the claim as stated. -/
theorem claim_C4_counterexample :
    statusCheckFails stepC4.expect.status 200 = false ∧
    List.lookup "b" [("a", PyVal.str "y"), ("b", PyVal.str "z")] =
      some (PyVal.str "z") ∧
    (execute_step "" httpC4 BUILTIN_VARIABLES stepC4).1.success = false ∧
    List.lookup "nm" (execute_step "" httpC4 BUILTIN_VARIABLES stepC4).2 = none :=
  ⟨rfl, rfl, rfl, rfl⟩
